import Mathlib

/-!
Verification of the demandio-notion-tools repository against its
natural-language specification.

The development shallowly embeds the Python sources:
  * `notion-drive-sync/main.py` — block renderers (`blocks_to_plaintext`,
    `blocks_to_html`), `html_escape`, property extraction
    (`extract_property_value`), `build_metadata`, and the webhook entry
    point `sync_notion_to_drive`;
  * `slack-grounding-recommendations/ai_analyzer.py` — the suggestion
    parser `parse_suggestions`;
  * `slack-grounding-recommendations/utils.py` — `parse_notion_url`.

Python string operations (`str.find`, slicing, `str.strip`, `str.split`,
`str.replace`, …) are modelled first, on `List Char`, with the exact
semantics of the CPython operations on the inputs the claims exercise
(ASCII fidelity; Unicode-only divergences such as locale-aware case
mapping are noted where they arise and are not exercised by any claim).
-/

/-! ## Python string primitives -/

/-- Character-list view of a string; Python `str` is modelled as `List Char`. -/
abbrev Chars := List Char

/-- The double-quote character (written via its code point to keep source plain). -/
def dquote : Char := Char.ofNat 34

/-- The single-quote character. -/
def squote : Char := Char.ofNat 39

/-- The backquote character. -/
def bquote : Char := Char.ofNat 96

/-- Python `s.find(pat)` helper: index of the first occurrence of `pat` in
`s`, counting from `i`; `-1` when absent.  `pat.find("") == 0` as in Python. -/
def pyFindAux (pat : Chars) : Chars → Nat → Int
  | [], i => if pat.isPrefixOf ([] : Chars) then (i : Int) else -1
  | c :: t, i => if pat.isPrefixOf (c :: t) then (i : Int) else pyFindAux pat t (i + 1)

/-- Python `s.find(pat)`. -/
def pyFind (s pat : String) : Int := pyFindAux pat.data s.data 0

/-- Split `s` at the first occurrence of `sep`: returns
`some (before, after)` where `s = before ++ sep ++ after`, or `none` when
`sep` does not occur in `s`. -/
def splitOnce (sep : Chars) : Chars → Option (Chars × Chars)
  | [] => if sep.isPrefixOf ([] : Chars) then some ([], []) else none
  | c :: t =>
    if sep.isPrefixOf (c :: t) then some ([], (c :: t).drop sep.length)
    else (splitOnce sep t).map (fun pr => (c :: pr.1, pr.2))

theorem splitOnce_append (sep : Chars) (s : Chars) (p r : Chars)
    (h : splitOnce sep s = some (p, r)) : s = p ++ sep ++ r := by
  induction s generalizing p r with
  | nil =>
    simp only [splitOnce] at h
    split at h
    · rename_i hpre
      simp only [List.isPrefixOf_iff_prefix] at hpre
      rcases hpre with ⟨u, hu⟩
      simp only [Option.some.injEq, Prod.mk.injEq] at h
      rcases h with ⟨hp, hr⟩
      subst hp; subst hr
      simp at hu ⊢
      simp [hu.1]
    · exact absurd h (by simp)
  | cons c t ih =>
    simp only [splitOnce] at h
    split at h
    · rename_i hpre
      simp only [List.isPrefixOf_iff_prefix] at hpre
      rcases hpre with ⟨u, hu⟩
      simp only [Option.some.injEq, Prod.mk.injEq] at h
      rcases h with ⟨hp, hr⟩
      subst hp; subst hr
      conv_lhs => rw [← hu]
      simp [List.drop_left' (by rfl : sep.length = sep.length)]
      rw [← hu]
      simp [List.drop_append_of_le_length (by omega : sep.length ≤ sep.length)]
    · rename_i hpre
      rcases hmap : splitOnce sep t with _ | ⟨q, r'⟩
      · rw [hmap] at h; simp at h
      · rw [hmap] at h
        simp only [Option.map_some', Option.some.injEq, Prod.mk.injEq] at h
        rcases h with ⟨hp, hr⟩
        subst hr
        have := ih q r' hmap
        rw [← hp]
        simp [this]

theorem splitOnce_length (sep : Chars) (s : Chars) (p r : Chars)
    (h : splitOnce sep s = some (p, r)) : s.length = p.length + sep.length + r.length := by
  have := splitOnce_append sep s p r h
  subst this
  simp; omega

/-- Python `s.split(sep)`, fuelled so that the recursion is structural
(the fuel is a step bound, not part of the semantics; `pySplitCh` seeds it
with `s.length + 1`, which `pySplitF_congr` shows is always enough). -/
def pySplitF (sep : Chars) : Nat → Chars → List Chars
  | 0, s => [s]
  | fuel + 1, s =>
    match splitOnce sep s with
    | none => [s]
    | some pr => pr.1 :: pySplitF sep fuel pr.2

theorem pySplitF_congr (sep : Chars) (hsep : sep ≠ []) :
    ∀ f1 f2 s, s.length < f1 → s.length < f2 → pySplitF sep f1 s = pySplitF sep f2 s := by
  intro f1
  induction f1 with
  | zero => intro f2 s h1 _; omega
  | succ a ih =>
    intro f2 s h1 h2
    cases f2 with
    | zero => omega
    | succ b =>
      simp only [pySplitF]
      cases hs : splitOnce sep s with
      | none => rfl
      | some pr =>
        have hlen := splitOnce_length sep s pr.1 pr.2 (by rw [hs])
        have hsl : 0 < sep.length := List.length_pos.mpr hsep
        exact congrArg (pr.1 :: ·) (ih b pr.2 (by omega) (by omega))

/-- Python `s.split(sep)` for a non-empty separator (Python raises on an
empty separator; that case is never exercised). -/
def pySplitCh (sep : Chars) (s : Chars) : List Chars :=
  pySplitF sep (s.length + 1) s

/-- The intended recursion of Python `str.split`: split off the text
before the first separator occurrence and continue after it. -/
theorem pySplitCh_eq (sep : Chars) (hsep : sep ≠ []) (s : Chars) :
    pySplitCh sep s =
      match splitOnce sep s with
      | none => [s]
      | some pr => pr.1 :: pySplitCh sep pr.2 := by
  show pySplitF sep (s.length + 1) s = _
  simp only [pySplitF]
  cases hs : splitOnce sep s with
  | none => rfl
  | some pr =>
    have hlen := splitOnce_length sep s pr.1 pr.2 (by rw [hs])
    have hsl : 0 < sep.length := List.length_pos.mpr hsep
    exact congrArg (pr.1 :: ·)
      (pySplitF_congr sep hsep s.length (pr.2.length + 1) pr.2 (by omega) (by omega))

/-- Python `s.split(sep)` on strings. -/
def pySplit (sep s : String) : List String :=
  (pySplitCh sep.data s.data).map (fun cs => String.mk cs)

/-- Python `s.replace(pat, rep)`, fuelled like `pySplitF`. -/
def pyReplaceF (pat rep : Chars) : Nat → Chars → Chars
  | 0, s => s
  | fuel + 1, s =>
    match splitOnce pat s with
    | none => s
    | some pr => pr.1 ++ rep ++ pyReplaceF pat rep fuel pr.2

theorem pyReplaceF_congr (pat rep : Chars) (hpat : pat ≠ []) :
    ∀ f1 f2 s, s.length < f1 → s.length < f2 →
      pyReplaceF pat rep f1 s = pyReplaceF pat rep f2 s := by
  intro f1
  induction f1 with
  | zero => intro f2 s h1 _; omega
  | succ a ih =>
    intro f2 s h1 h2
    cases f2 with
    | zero => omega
    | succ b =>
      simp only [pyReplaceF]
      cases hs : splitOnce pat s with
      | none => rfl
      | some pr =>
        have hlen := splitOnce_length pat s pr.1 pr.2 (by rw [hs])
        have hsl : 0 < pat.length := List.length_pos.mpr hpat
        exact congrArg (pr.1 ++ rep ++ ·) (ih b pr.2 (by omega) (by omega))

/-- Python `s.replace(pat, rep)` for a non-empty pattern: replaces every
non-overlapping occurrence, scanning left to right. -/
def pyReplaceCh (pat rep : Chars) (s : Chars) : Chars :=
  pyReplaceF pat rep (s.length + 1) s

/-- The intended recursion of Python `str.replace`. -/
theorem pyReplaceCh_eq (pat rep : Chars) (hpat : pat ≠ []) (s : Chars) :
    pyReplaceCh pat rep s =
      match splitOnce pat s with
      | none => s
      | some pr => pr.1 ++ rep ++ pyReplaceCh pat rep pr.2 := by
  show pyReplaceF pat rep (s.length + 1) s = _
  simp only [pyReplaceF]
  cases hs : splitOnce pat s with
  | none => rfl
  | some pr =>
    have hlen := splitOnce_length pat s pr.1 pr.2 (by rw [hs])
    have hsl : 0 < pat.length := List.length_pos.mpr hpat
    exact congrArg (pr.1 ++ rep ++ ·)
      (pyReplaceF_congr pat rep hpat s.length (pr.2.length + 1) pr.2 (by omega) (by omega))

/-- Python `s.replace(pat, rep)` on strings. -/
def pyReplace (s pat rep : String) : String :=
  String.mk (pyReplaceCh pat.data rep.data s.data)

/-- Python slicing `s[a:b]` with int indices: negative indices count from
the end, out-of-range indices clamp. -/
def pySliceCh (s : Chars) (a b : Int) : Chars :=
  let n : Int := s.length
  let a' : Nat := if a < 0 then (n + a).toNat else min a.toNat s.length
  let b' : Nat := if b < 0 then (n + b).toNat else min b.toNat s.length
  (s.take b').drop a'

/-- Python `s[a:b]` on strings. -/
def pySlice (s : String) (a b : Int) : String := String.mk (pySliceCh s.data a b)

/-- Python `s[a:]` on strings (equivalent to `s[a:len(s)]` for our uses). -/
def pySliceFrom (s : String) (a : Int) : String := String.mk (pySliceCh s.data a s.data.length)

/-- Python `str.strip()` (whitespace from both ends). -/
def pyStripCh (s : Chars) : Chars :=
  ((s.dropWhile Char.isWhitespace).reverse.dropWhile Char.isWhitespace).reverse

/-- Python `s.strip()` on strings. -/
def pyStrip (s : String) : String := String.mk (pyStripCh s.data)

/-- Python `s.strip(c)` for a one-character strip set. -/
def pyStripCharCh (c : Char) (s : Chars) : Chars :=
  ((s.dropWhile (· = c)).reverse.dropWhile (· = c)).reverse

/-- Python `s.strip(c)` on strings. -/
def pyStripChar (c : Char) (s : String) : String := String.mk (pyStripCharCh c s.data)

/-- Python `pat in s` (substring containment). -/
def pyContains (s pat : String) : Bool := (splitOnce pat.data s.data).isSome

/-- Python truthiness of an `Optional[str]`: `None` and `""` are falsy. -/
def pyTruthyStr (o : Option String) : Bool :=
  match o with
  | none => false
  | some s => s ≠ ""

/-- Python `a or b` for `a : Optional[str]` with a string fallback
(`None` and `""` fall through to `b`). -/
def pyOrStr (a : Option String) (b : String) : String :=
  match a with
  | none => b
  | some s => if s = "" then b else s

/-- Python `dict.get(key, default)` for a string field modelled as
`Option String`: the default applies only when the key is absent. -/
def pyGetD (o : Option String) (d : String) : String := o.getD d

/-- Python `s.upper()` (ASCII case mapping; the claims only exercise
ASCII text). -/
def pyUpper (s : String) : String := String.mk (s.data.map Char.toUpper)

/-- Python `s.lower()` (ASCII case mapping). -/
def pyLower (s : String) : String := String.mk (s.data.map Char.toLower)

/-- Python `s.startswith(pre)`. -/
def pyStartswith (s pre : String) : Bool := pre.data.isPrefixOf s.data

/-- Python `s.endswith(suf)`. -/
def pyEndswith (s suf : String) : Bool := suf.data.reverse.isPrefixOf s.data.reverse

/-! ## Python `"\n".join` -/

/-- Python `"\n".join(lines)`. -/
def joinLines : List String → String
  | [] => ""
  | [a] => a
  | a :: b :: rest => a ++ "\n" ++ joinLines (b :: rest)

theorem joinLines_cons (a : String) (l : List String) (h : l ≠ []) :
    joinLines (a :: l) = a ++ "\n" ++ joinLines l := by
  cases l with
  | nil => exact absurd rfl h
  | cons b t => rfl

theorem joinLines_append (m l : List String) (hm : m ≠ []) (hl : l ≠ []) :
    joinLines (m ++ l) = joinLines m ++ "\n" ++ joinLines l := by
  induction m with
  | nil => exact absurd rfl hm
  | cons a t ih =>
    cases t with
    | nil =>
      simp only [List.cons_append, List.nil_append]
      rw [joinLines_cons a l hl]
      rfl
    | cons b t' =>
      have ht : b :: t' ≠ [] := by simp
      rw [List.cons_append, joinLines_cons a ((b :: t') ++ l) (by simp),
        joinLines_cons a (b :: t') ht, ih ht]
      simp [String.append_assoc]

/-- Flattening a nested join: an element that is itself a join of a
non-empty list can be spliced into the surrounding list. -/
theorem joinLines_splice (l1 m l3 : List String) (hm : m ≠ []) :
    joinLines (l1 ++ joinLines m :: l3) = joinLines (l1 ++ (m ++ l3)) := by
  induction l1 with
  | nil =>
    simp only [List.nil_append]
    cases l3 with
    | nil =>
      simp only [List.append_nil]
      rfl
    | cons c t =>
      rw [joinLines_cons (joinLines m) (c :: t) (by simp),
        joinLines_append m (c :: t) hm (by simp)]
  | cons a t ih =>
    have h1 : t ++ joinLines m :: l3 ≠ [] := by simp
    have h2 : t ++ (m ++ l3) ≠ [] := by
      cases t <;> simp [hm]
    rw [List.cons_append, joinLines_cons a _ h1, ih, List.cons_append,
      joinLines_cons a _ h2]


/-- Joining `P ++ A` and `P ++ B` gives equal strings whenever the tails
join equally and are empty together. -/
theorem joinLines_congr_append (P A B : List String)
    (h : joinLines A = joinLines B) (hne : A = [] ↔ B = []) :
    joinLines (P ++ A) = joinLines (P ++ B) := by
  induction P with
  | nil => simpa using h
  | cons p t ih =>
    by_cases htA : t ++ A = []
    · have hA : A = [] := by
        rcases List.append_eq_nil.mp htA with ⟨_, h2⟩; exact h2
      have ht : t = [] := by
        rcases List.append_eq_nil.mp htA with ⟨h1, _⟩; exact h1
      have hB : B = [] := hne.mp hA
      subst hA; subst hB; subst ht; rfl
    · have htB : t ++ B ≠ [] := by
        intro hc
        rcases List.append_eq_nil.mp hc with ⟨h1, h2⟩
        exact htA (by simp [h1, hne.mpr h2])
      rw [List.cons_append, List.cons_append, joinLines_cons p _ htA,
        joinLines_cons p _ htB, ih]

/-! ## Notion block model and renderers (`notion-drive-sync/main.py`) -/

/-- One inline rich-text span; `span.get("plain_text", "")` is modelled by
storing the plain text directly (absent key = `""`). -/
structure Span where
  plain_text : String
deriving DecidableEq, Repr

mutual
/-- A Notion block: discriminant type tag, the `rich_text` array of its
type-specific payload, and its (possibly empty) list of child blocks.
`blk.get("children")` is truthy exactly when the child list is non-nil.
(`Blocks` is an inlined list type so that the recursive renderers are
structurally recursive and computable by the kernel.) -/
inductive Block where
  | mk (type : String) (rich_text : List Span) (children : Blocks)

/-- A list of sibling blocks, in document order. -/
inductive Blocks where
  | nil
  | cons (head : Block) (tail : Blocks)
end

/-- The block's type tag. -/
def Block.type : Block → String
  | .mk t _ _ => t

/-- The block's rich-text payload. -/
def Block.rich_text : Block → List Span
  | .mk _ rt _ => rt

/-- The block's children. -/
def Block.children : Block → Blocks
  | .mk _ _ ch => ch

/-- Emptiness test for a sibling list (Python truthiness of the
`children` value). -/
def Blocks.isNil : Blocks → Bool
  | .nil => true
  | .cons _ _ => false

/-- Concatenation of sibling lists. -/
def Blocks.append : Blocks → Blocks → Blocks
  | .nil, ys => ys
  | .cons b t, ys => .cons b (Blocks.append t ys)

/-- `_extract_rich_text` (`main.py` lines 76–77): concatenate the
`plain_text` of each span. -/
def extract_rich_text (spans : List Span) : String :=
  String.join (spans.map Span.plain_text)

/-- The single line `blocks_to_plaintext` appends for one block
(`main.py` lines 162–177). -/
def ptLine (b : Block) : String :=
  let typ := b.type
  let content := if typ ≠ "divider" then extract_rich_text b.rich_text else "---"
  if pyStartswith typ "heading_" then pyUpper content
  else if typ = "bulleted_list_item" then "- " ++ content
  else if typ = "numbered_list_item" then "1. " ++ content
  else if typ = "quote" then "> " ++ content
  else if typ = "code" then content
  else if typ = "divider" then "\n---\n"
  else content

/-- The `lines` list built by the loop of `blocks_to_plaintext`: one line
per block, followed (when the block has children) by the single element
`blocks_to_plaintext(children)`. -/
def ptLoop : Blocks → List String
  | .nil => []
  | .cons (Block.mk ty rt ch) rest =>
    ptLine (Block.mk ty rt ch) ::
      (if ch.isNil then ptLoop rest
       else joinLines (ptLoop ch) :: ptLoop rest)

/-- `blocks_to_plaintext` (`main.py` lines 159–180): `"\n".join(lines)`. -/
def blocks_to_plaintext (blocks : Blocks) : String :=
  joinLines (ptLoop blocks)

/-- `html_escape` (`main.py` lines 183–190): the chain of five
`str.replace` calls, in source order. -/
def html_escape (s : String) : String :=
  String.mk
    (pyReplaceCh [squote] "&#39;".data
      (pyReplaceCh [dquote] "&quot;".data
        (pyReplaceCh ['>'] "&gt;".data
          (pyReplaceCh ['<'] "&lt;".data
            (pyReplaceCh ['&'] "&amp;".data s.data)))))

/-- The parts `blocks_to_html` appends for one block's own tag
(`main.py` lines 197–214): one wrapped element for each recognized type,
nothing for an unrecognized type. -/
def htmlOwn (b : Block) : List String :=
  let typ := b.type
  let txt := html_escape (extract_rich_text b.rich_text)
  if typ = "paragraph" then ["<p>" ++ txt ++ "</p>"]
  else if typ = "heading_1" then ["<h1>" ++ txt ++ "</h1>"]
  else if typ = "heading_2" then ["<h2>" ++ txt ++ "</h2>"]
  else if typ = "heading_3" then ["<h3>" ++ txt ++ "</h3>"]
  else if typ = "bulleted_list_item" then ["<ul><li>" ++ txt ++ "</li></ul>"]
  else if typ = "numbered_list_item" then ["<ol><li>" ++ txt ++ "</li></ol>"]
  else if typ = "code" then ["<pre><code>" ++ txt ++ "</code></pre>"]
  else if typ = "quote" then ["<blockquote>" ++ txt ++ "</blockquote>"]
  else if typ = "divider" then ["<hr />"]
  else []

/-- The `parts` list built by the loop of `blocks_to_html`. -/
def htmlLoop : Blocks → List String
  | .nil => []
  | .cons (Block.mk ty rt ch) rest =>
    htmlOwn (Block.mk ty rt ch) ++
      (if ch.isNil then htmlLoop rest
       else joinLines (htmlLoop ch) :: htmlLoop rest)

/-- `blocks_to_html` (`main.py` lines 193–217): `"\n".join(parts)`. -/
def blocks_to_html (blocks : Blocks) : String :=
  joinLines (htmlLoop blocks)

/-! ### Depth-first flattenings of the two renderers

`ptDfs`/`htmlDfs` list, in one flat sequence, the output segments of
every block in depth-first document order: the block's own line(s), then
the segments of all its children, then the next sibling's.  The
order-preservation claims are settled by proving each renderer equal to
the newline-join of this flat sequence. -/

/-- Flat depth-first emission sequence of the plain-text renderer. -/
def ptDfs : Blocks → List String
  | .nil => []
  | .cons (Block.mk ty rt ch) rest =>
    ptLine (Block.mk ty rt ch) :: (ptDfs ch ++ ptDfs rest)

/-- Flat depth-first emission sequence of the HTML renderer.  A block
with children whose whole descendant forest emits nothing (all
unrecognized and childless) still contributes one empty segment, because
`blocks_to_html` appends the recursive render of such children as one
empty part. -/
def htmlDfs : Blocks → List String
  | .nil => []
  | .cons (Block.mk ty rt ch) rest =>
    htmlOwn (Block.mk ty rt ch) ++
      ((if ch.isNil then []
        else if htmlDfs ch = [] then [""] else htmlDfs ch) ++ htmlDfs rest)

theorem ptLoop_ne_nil (b : Block) (rest : Blocks) : ptLoop (Blocks.cons b rest) ≠ [] := by
  cases b; simp [ptLoop]

theorem ptDfs_ne_nil (b : Block) (rest : Blocks) : ptDfs (Blocks.cons b rest) ≠ [] := by
  cases b; simp [ptDfs]

theorem ptLoop_nil_iff (bs : Blocks) : ptLoop bs = [] ↔ ptDfs bs = [] := by
  cases bs with
  | nil => simp [ptLoop, ptDfs]
  | cons b rest => simp [ptLoop_ne_nil b rest, ptDfs_ne_nil b rest]

/-- The plain-text renderer emits exactly the depth-first flat sequence. -/
theorem blocks_to_plaintext_eq_dfs : ∀ bs : Blocks, blocks_to_plaintext bs = joinLines (ptDfs bs)
  | Blocks.nil => rfl
  | Blocks.cons (Block.mk ty rt ch) rest => by
    have ihc := blocks_to_plaintext_eq_dfs ch
    have ihr := blocks_to_plaintext_eq_dfs rest
    show joinLines (ptLoop (Blocks.cons (Block.mk ty rt ch) rest)) = _
    cases ch with
    | nil =>
      simp only [ptLoop, Blocks.isNil, if_pos, ptDfs, List.nil_append]
      have : ptLine (Block.mk ty rt Blocks.nil) :: ptLoop rest
          = [ptLine (Block.mk ty rt Blocks.nil)] ++ ptLoop rest := rfl
      rw [this]
      have : ptLine (Block.mk ty rt Blocks.nil) :: ptDfs rest
          = [ptLine (Block.mk ty rt Blocks.nil)] ++ ptDfs rest := rfl
      rw [this]
      exact joinLines_congr_append _ _ _ ihr (ptLoop_nil_iff rest)
    | cons c ct =>
      have ihc' : joinLines (ptLoop (Blocks.cons c ct)) = joinLines (ptDfs (Blocks.cons c ct)) := ihc
      simp only [ptLoop, Blocks.isNil, ptDfs]
      rw [if_neg (by simp), ihc']
      have hchne : ptDfs (Blocks.cons c ct) ≠ [] := ptDfs_ne_nil c ct
      have hsplice := joinLines_splice [ptLine (Block.mk ty rt (Blocks.cons c ct))]
        (ptDfs (Blocks.cons c ct)) (ptLoop rest) hchne
      simp only [List.cons_append, List.nil_append] at hsplice
      rw [hsplice]
      have h1 : ptLine (Block.mk ty rt (Blocks.cons c ct)) :: (ptDfs (Blocks.cons c ct) ++ ptLoop rest)
          = (ptLine (Block.mk ty rt (Blocks.cons c ct)) :: ptDfs (Blocks.cons c ct)) ++ ptLoop rest := by
        simp
      have h2 : ptLine (Block.mk ty rt (Blocks.cons c ct)) :: (ptDfs (Blocks.cons c ct) ++ ptDfs rest)
          = (ptLine (Block.mk ty rt (Blocks.cons c ct)) :: ptDfs (Blocks.cons c ct)) ++ ptDfs rest := by
        simp
      rw [h1, h2]
      exact joinLines_congr_append _ _ _ ihr (ptLoop_nil_iff rest)

theorem htmlLoop_nil_iff : ∀ bs : Blocks, (htmlLoop bs = [] ↔ htmlDfs bs = [])
  | Blocks.nil => by simp [htmlLoop, htmlDfs]
  | Blocks.cons (Block.mk ty rt ch) rest => by
    have ih := htmlLoop_nil_iff rest
    cases ch with
    | nil =>
      simp only [htmlLoop, htmlDfs, Blocks.isNil, if_pos, List.nil_append,
        List.append_eq_nil]
      constructor
      · rintro ⟨h1, h2⟩; exact ⟨h1, ih.mp h2⟩
      · rintro ⟨h1, h2⟩; exact ⟨h1, ih.mpr h2⟩
    | cons c ct =>
      simp only [htmlLoop, htmlDfs, Blocks.isNil, List.append_eq_nil]
      rw [if_neg (by simp), if_neg (by simp)]
      constructor
      · rintro ⟨_, h2⟩; cases h2
      · rintro ⟨_, h2, _⟩
        exfalso
        by_cases hd : htmlDfs (Blocks.cons c ct) = []
        · rw [if_pos hd] at h2; cases h2
        · rw [if_neg hd] at h2; exact hd h2

/-- Congruence of `joinLines` in a middle-segment position. -/
theorem joinLines_mid_congr (P M A B : List String)
    (h : joinLines A = joinLines B) (hne : A = [] ↔ B = []) :
    joinLines (P ++ (M ++ A)) = joinLines (P ++ (M ++ B)) := by
  rw [← List.append_assoc, ← List.append_assoc]
  exact joinLines_congr_append (P ++ M) A B h hne

/-- The HTML renderer emits exactly the depth-first flat sequence. -/
theorem blocks_to_html_eq_dfs : ∀ bs : Blocks, blocks_to_html bs = joinLines (htmlDfs bs)
  | Blocks.nil => rfl
  | Blocks.cons (Block.mk ty rt ch) rest => by
    have ihc : joinLines (htmlLoop ch) = joinLines (htmlDfs ch) := blocks_to_html_eq_dfs ch
    have ihr : joinLines (htmlLoop rest) = joinLines (htmlDfs rest) := blocks_to_html_eq_dfs rest
    show joinLines (htmlLoop (Blocks.cons (Block.mk ty rt ch) rest)) = _
    cases ch with
    | nil =>
      simp only [htmlLoop, htmlDfs, Blocks.isNil, if_pos, List.nil_append]
      exact joinLines_congr_append (htmlOwn (Block.mk ty rt Blocks.nil)) _ _ ihr
        (htmlLoop_nil_iff rest)
    | cons c ct =>
      simp only [htmlLoop, htmlDfs, Blocks.isNil]
      rw [if_neg (by simp), if_neg (by simp), ihc]
      by_cases hd : htmlDfs (Blocks.cons c ct) = []
      · rw [hd, if_pos rfl]
        exact joinLines_mid_congr (htmlOwn (Block.mk ty rt (Blocks.cons c ct)))
          [joinLines ([] : List String)] _ _ ihr (htmlLoop_nil_iff rest)
      · rw [if_neg hd]
        have hsplice := joinLines_splice (htmlOwn (Block.mk ty rt (Blocks.cons c ct)))
          (htmlDfs (Blocks.cons c ct)) (htmlLoop rest) hd
        rw [hsplice]
        exact joinLines_mid_congr (htmlOwn (Block.mk ty rt (Blocks.cons c ct)))
          (htmlDfs (Blocks.cons c ct)) _ _ ihr (htmlLoop_nil_iff rest)

/-! ### Characterizing `html_escape` -/

/-- The five HTML-reserved characters. -/
def htmlReserved : Chars := ['&', '<', '>', dquote, squote]

/-- Per-character escape map asserted by the spec: each of the five
reserved characters becomes its entity, all other characters pass
through. -/
def escChar (c : Char) : Chars :=
  if c = '&' then "&amp;".data
  else if c = '<' then "&lt;".data
  else if c = '>' then "&gt;".data
  else if c = dquote then "&quot;".data
  else if c = squote then "&#39;".data
  else [c]

theorem splitOnce_single_none (c : Char) (s : Chars) (h : c ∉ s) :
    splitOnce [c] s = none := by
  induction s with
  | nil => rfl
  | cons x t ih =>
    simp only [splitOnce]
    rw [if_neg, ih (fun hm => h (List.mem_cons_of_mem x hm))]
    · rfl
    · intro hpre
      rw [List.isPrefixOf_iff_prefix] at hpre
      rcases hpre with ⟨u, hu⟩
      apply h
      have : c = x := by
        have := congrArg (fun l => l.head?) hu
        simpa using this
      simp [this]

theorem splitOnce_single_first (c : Char) (s p r : Chars)
    (h : splitOnce [c] s = some (p, r)) : c ∉ p := by
  induction s generalizing p r with
  | nil =>
    simp only [splitOnce] at h
    split at h
    · rename_i hpre
      simp [List.isPrefixOf_iff_prefix] at hpre
    · cases h
  | cons x t ih =>
    simp only [splitOnce] at h
    split at h
    · simp only [Option.some.injEq, Prod.mk.injEq] at h
      rcases h with ⟨hp, _⟩
      subst hp; simp
    · rename_i hpre
      rcases hmap : splitOnce [c] t with _ | ⟨q, r'⟩
      · rw [hmap] at h; cases h
      · rw [hmap] at h
        simp only [Option.map_some', Option.some.injEq, Prod.mk.injEq] at h
        rcases h with ⟨hp, _⟩
        subst hp
        intro hm
        rcases List.mem_cons.mp hm with hcx | hcq
        · apply hpre
          rw [List.isPrefixOf_iff_prefix, hcx]
          exact ⟨t, rfl⟩
        · exact ih q r' hmap hcq

theorem splitOnce_single_isSome (c : Char) (s : Chars) (h : c ∈ s) :
    (splitOnce [c] s).isSome := by
  induction s with
  | nil => cases h
  | cons x t ih =>
    simp only [splitOnce]
    by_cases hx : [c].isPrefixOf (x :: t)
    · rw [if_pos hx]; rfl
    · rw [if_neg hx]
      have hct : c ∈ t := by
        rcases List.mem_cons.mp h with h1 | h2
        · exfalso
          apply hx
          rw [List.isPrefixOf_iff_prefix, h1]
          exact ⟨t, rfl⟩
        · exact h2
      have hs := ih hct
      rcases ho : splitOnce [c] t with _ | pr
      · rw [ho] at hs; cases hs
      · simp

theorem flatMap_id_of_not_mem (c : Char) (rep : Chars) (s : Chars) (h : c ∉ s) :
    (s.flatMap fun x => if x = c then rep else [x]) = s := by
  induction s with
  | nil => rfl
  | cons x t ih =>
    rw [List.flatMap_cons, if_neg (fun hx => h (by simp [hx])),
      ih (fun hm => h (List.mem_cons_of_mem x hm))]
    rfl

/-- A single-character Python `replace` is a per-character expansion. -/
theorem pyReplaceCh_single (c : Char) (rep : Chars) (s : Chars) :
    pyReplaceCh [c] rep s = s.flatMap (fun x => if x = c then rep else [x]) := by
  have main : ∀ n (s : Chars), s.length ≤ n →
      pyReplaceCh [c] rep s = s.flatMap (fun x => if x = c then rep else [x]) := by
    intro n
    induction n with
    | zero =>
      intro s hs
      have : s = [] := List.length_eq_zero.mp (Nat.le_zero.mp hs)
      subst this
      rfl
    | succ n ih =>
      intro s hs
      rw [pyReplaceCh_eq [c] rep (by simp) s]
      cases hsp : splitOnce [c] s with
      | none =>
        have hnm : c ∉ s := by
          intro hm
          have := splitOnce_single_isSome c s hm
          rw [hsp] at this
          cases this
        rw [flatMap_id_of_not_mem c rep s hnm]
      | some pr =>
        have happ := splitOnce_append [c] s pr.1 pr.2 (by rw [hsp])
        have hlen := splitOnce_length [c] s pr.1 pr.2 (by rw [hsp])
        have hfirst := splitOnce_single_first c s pr.1 pr.2 (by rw [hsp])
        show pr.1 ++ rep ++ pyReplaceCh [c] rep pr.2 = _
        rw [ih pr.2 (by simp at hlen; omega)]
        conv_rhs => rw [happ]
        rw [List.flatMap_append, List.flatMap_append,
          flatMap_id_of_not_mem c rep pr.1 hfirst]
        simp
  exact main s.length s (Nat.le_refl _)

theorem escChar_chain (c : Char) :
    ((if c = '&' then "&amp;".data else [c]).flatMap fun x =>
      (if x = '<' then "&lt;".data else [x]).flatMap fun x =>
        (if x = '>' then "&gt;".data else [x]).flatMap fun x =>
          (if x = dquote then "&quot;".data else [x]).flatMap fun x =>
            if x = squote then "&#39;".data else [x]) = escChar c := by
  by_cases h1 : c = '&'
  · subst h1; rfl
  by_cases h2 : c = '<'
  · subst h2; rfl
  by_cases h3 : c = '>'
  · subst h3; rfl
  by_cases h4 : c = dquote
  · subst h4; rfl
  by_cases h5 : c = squote
  · subst h5; rfl
  simp [escChar, h1, h2, h3, h4, h5]

/-- Modelled from the spec: "HTML rendering escapes all five reserved
characters in every text field" — the per-character escape map `escChar`
applied to every character of the input, independently. -/
def specEscape (s : String) : String := String.mk (s.data.flatMap escChar)

/-- The source's chain of five `str.replace` calls implements exactly the
per-character escape map (no double-escaping of inserted entities). -/
theorem html_escape_eq_specEscape (s : String) : html_escape s = specEscape s := by
  show String.mk _ = String.mk _
  congr 1
  rw [pyReplaceCh_single, pyReplaceCh_single, pyReplaceCh_single, pyReplaceCh_single,
    pyReplaceCh_single, List.flatMap_assoc, List.flatMap_assoc, List.flatMap_assoc,
    List.flatMap_assoc]
  exact List.flatMap_congr (fun c _ => escChar_chain c)

theorem escChar_eq_self (c : Char) (h : c ∉ htmlReserved) : escChar c = [c] := by
  have h1 : c ≠ '&' := fun e => h (by simp [htmlReserved, e])
  have h2 : c ≠ '<' := fun e => h (by simp [htmlReserved, e])
  have h3 : c ≠ '>' := fun e => h (by simp [htmlReserved, e])
  have h4 : c ≠ dquote := fun e => h (by simp [htmlReserved, e])
  have h5 : c ≠ squote := fun e => h (by simp [htmlReserved, e])
  simp [escChar, h1, h2, h3, h4, h5]

theorem flatMap_escChar_id (cs : Chars) (h : ∀ c ∈ cs, c ∉ htmlReserved) :
    cs.flatMap escChar = cs := by
  induction cs with
  | nil => rfl
  | cons x t ih =>
    rw [List.flatMap_cons, escChar_eq_self x (h x (by simp)),
      ih (fun c hc => h c (List.mem_cons_of_mem x hc))]
    rfl

theorem html_escape_id (s : String) (h : ∀ c ∈ s.data, c ∉ htmlReserved) :
    html_escape s = s := by
  rw [html_escape_eq_specEscape]
  show String.mk _ = s
  rw [flatMap_escChar_id s.data h]

/-- Modelled from the spec: "round-tripping escaped output through an
unescape function must reproduce the original text" — the unescape
function inverts the five entity substitutions (the ampersand entity
last, so that entities produced from literal ampersands are not
re-expanded). -/
def htmlUnescape (s : String) : String :=
  pyReplace
    (pyReplace
      (pyReplace
        (pyReplace
          (pyReplace s "&lt;" "<")
          "&gt;" ">")
        "&quot;" (String.mk [dquote]))
      "&#39;" (String.mk [squote]))
    "&amp;" "&"

theorem splitOnce_none_of_not_mem (pat s : Chars) (c : Char)
    (hc : c ∈ pat) (hs : c ∉ s) : splitOnce pat s = none := by
  cases ho : splitOnce pat s with
  | none => rfl
  | some pr =>
    exfalso
    have := splitOnce_append pat s pr.1 pr.2 (by rw [ho])
    apply hs
    rw [this]
    simp [hc]

theorem pyReplaceCh_id_of_none (pat rep s : Chars) (h : splitOnce pat s = none) :
    pyReplaceCh pat rep s = s := by
  have hpat : pat ≠ [] := by
    intro hp
    subst hp
    cases s <;> simp [splitOnce] at h
  rw [pyReplaceCh_eq pat rep hpat s, h]

theorem htmlUnescape_id (s : String) (h : '&' ∉ s.data) : htmlUnescape s = s := by
  unfold htmlUnescape
  unfold pyReplace
  rw [pyReplaceCh_id_of_none _ _ _ (splitOnce_none_of_not_mem _ _ '&' (by decide) h)]
  rw [pyReplaceCh_id_of_none _ _ _ (splitOnce_none_of_not_mem _ _ '&' (by decide) h)]
  rw [pyReplaceCh_id_of_none _ _ _ (splitOnce_none_of_not_mem _ _ '&' (by decide) h)]
  rw [pyReplaceCh_id_of_none _ _ _ (splitOnce_none_of_not_mem _ _ '&' (by decide) h)]
  rw [pyReplaceCh_id_of_none _ _ _ (splitOnce_none_of_not_mem _ _ '&' (by decide) h)]

/-! ## Suggestion parser (`slack-grounding-recommendations/ai_analyzer.py`) -/

/-- One parsed suggestion record (`_parse_suggestions` builds a dict with
these eight labelled fields). -/
structure Suggestion where
  source_message_link : String
  thread_context : String
  triggering_text : String
  block_id : String
  conflicting_text : String
  suggested_edit : String
  reasoning : String
  confidence_score : String
deriving DecidableEq, Repr

/-- Field marker: source message link. -/
def mSrc : String := "**Source Message Link:**"

/-- Field marker: thread context. -/
def mCtx : String := "**Thread Context:**"

/-- Field marker: triggering text. -/
def mTrig : String := "**Triggering Text:**"

/-- Field marker: conflicting block id. -/
def mBlock : String := "**Conflicting Block ID:**"

/-- Field marker: conflicting text in block. -/
def mConfl : String := "**Conflicting Text in Block:**"

/-- Field marker: suggested edit. -/
def mEdit : String := "**Suggested Edit:**"

/-- Field marker: reasoning. -/
def mReason : String := "**Reasoning:**"

/-- Field marker: confidence score. -/
def mScore : String := "**Confidence Score:**"

/-- The body of the per-part loop of `_parse_suggestions`
(`ai_analyzer.py` lines 174–218).  Python `str.find` returns `-1` when a
marker is absent, and slicing, `strip()` and `strip(c)` are total, so the
body never raises: the `try/except` wrapped around it in the source is
unreachable and every part yields a record. -/
def parseOne (part : String) : Suggestion :=
  let link_start := pyFind part mSrc + (mSrc.length : Int)
  let link_end := pyFind part mCtx
  let context_start := pyFind part mCtx + (mCtx.length : Int)
  let context_end := pyFind part mTrig
  let text_start := pyFind part mTrig + (mTrig.length : Int)
  let text_end := pyFind part mBlock
  let block_start := pyFind part mBlock + (mBlock.length : Int)
  let block_end := pyFind part mConfl
  let conflict_start := pyFind part mConfl + (mConfl.length : Int)
  let conflict_end := pyFind part mEdit
  let edit_start := pyFind part mEdit + (mEdit.length : Int)
  let edit_end := pyFind part mReason
  let reason_start := pyFind part mReason + (mReason.length : Int)
  let reason_end := pyFind part mScore
  let conf_start := pyFind part mScore + (mScore.length : Int)
  { source_message_link := pyStripChar bquote (pyStrip (pySlice part link_start link_end))
    thread_context := pyStripChar dquote (pyStrip (pySlice part context_start context_end))
    triggering_text := pyStripChar dquote (pyStrip (pySlice part text_start text_end))
    block_id := pyStripChar dquote (pyStrip (pySlice part block_start block_end))
    conflicting_text := pyStripChar dquote (pyStrip (pySlice part conflict_start conflict_end))
    suggested_edit := pyStripChar dquote (pyStrip (pySlice part edit_start edit_end))
    reasoning := pyStripChar bquote (pyStrip (pySlice part reason_start reason_end))
    confidence_score := pyStripChar bquote (pyStrip (pySliceFrom part conf_start)) }

/-- `_parse_suggestions` (`ai_analyzer.py` lines 159–224): the sentinel
check is a substring test; otherwise the response is split on the literal
`"**Suggestion"`, the first piece is skipped, and every remaining piece
produces one record. -/
def parse_suggestions (response : String) : List Suggestion :=
  if pyContains response "No suggestions found." then []
  else ((pySplit "**Suggestion" response).drop 1).map parseOne

/-! ## Property extraction and metadata (`notion-drive-sync/main.py`) -/

/-- Generic Python `sep.join(xs)`. -/
def joinWith (sep : String) : List String → String
  | [] => ""
  | [a] => a
  | a :: b :: t => a ++ sep ++ joinWith sep (b :: t)

/-- Python `str.title()` state machine: a letter after a non-letter is
upper-cased, a letter after a letter is lower-cased (ASCII fidelity). -/
def pyTitleGo : Bool → Chars → Chars
  | _, [] => []
  | prevAlpha, c :: t =>
    (if c.isAlpha then (if prevAlpha then c.toLower else c.toUpper) else c) ::
      pyTitleGo c.isAlpha t

/-- Python `s.title()`. -/
def pyTitle (s : String) : String := String.mk (pyTitleGo false s.data)

/-- Python `f"{x}"` for `x : Optional[str]` (`None` prints as `"None"`). -/
def pyStrOpt (o : Option String) : String :=
  match o with
  | none => "None"
  | some s => s

/-- A `select`/`status`/`multi_select` option object (`name` key may be
absent). -/
structure SelectOpt where
  name : Option String
deriving DecidableEq, Repr

/-- A `date` property value; `endv` models the `end` key (a reserved word
in Lean). -/
structure DateVal where
  start : Option String
  endv : Option String
deriving DecidableEq, Repr

/-- A Notion user object as read by the source (`name`/`id` keys may be
absent). -/
structure UserObj where
  name : Option String
  id : Option String
deriving DecidableEq, Repr

/-- The nested `file` object of a `files` property entry. -/
structure FileRef where
  url : Option String
deriving DecidableEq, Repr

/-- One entry of a `files` property. -/
structure FileItem where
  name : Option String
  file : Option FileRef
deriving DecidableEq, Repr

/-- A `formula` property payload, by its inner type tag. -/
inductive FormulaVal where
  | fstring (s : Option String)
  | fnumber (n : Option Int)
  | fboolean (b : Bool)
  | fdate (d : Option DateVal)
  | funknown
deriving DecidableEq, Repr

/-- A `rollup` property payload, by its inner type tag (for `array` only
the length is consumed by the source, so only it is modelled). -/
inductive RollupVal where
  | rnumber (n : Option Int)
  | rarray (count : Nat)
  | runknown
deriving DecidableEq, Repr

/-- A Notion page property, by type tag, carrying exactly the payload the
source reads.  Numbers are modelled as `Int` (the claims never exercise
float formatting); `relation` carries only its length, which is all the
source consumes.  `unknownProp` covers an empty/typeless property dict and
every unrecognized type tag (all reach the final `return None`). -/
inductive NotionProp where
  | title (spans : List Span)
  | rich_text (spans : List Span)
  | number (n : Option Int)
  | select (sel : Option SelectOpt)
  | multi_select (items : List SelectOpt)
  | date (d : Option DateVal)
  | checkbox (b : Bool)
  | url (u : Option String)
  | email (e : Option String)
  | phone_number (p : Option String)
  | people (ps : List UserObj)
  | files (fs : List FileItem)
  | formula (f : FormulaVal)
  | relation (count : Nat)
  | rollup (r : RollupVal)
  | created_time (ts : Option String)
  | last_edited_time (ts : Option String)
  | created_by (u : UserObj)
  | last_edited_by (u : UserObj)
  | status (s : Option SelectOpt)
  | unknownProp
deriving DecidableEq, Repr

/-- `user.get("name") or user.get("id", "Unknown")` (Python `or`:
`None`/`""` fall through; the `"Unknown"` default applies only when the
`id` key is absent). -/
def personName (p : UserObj) : String := pyOrStr p.name (pyGetD p.id "Unknown")

/-- Python `url.split("/")[-1]` (`str.split` never returns an empty
list, so the `""` default is unreachable). -/
def lastSlashComponent (url : String) : String :=
  (pySplit "/" url).getLastD ""

/-- The names contributed by one `files` entry (`main.py` lines 270–277):
a truthy `name` wins; otherwise a present `file` object contributes the
last path component of its URL, or `"Unnamed file"` for a missing/empty
URL; otherwise nothing.  (A present-but-empty `file` dict would be falsy
in Python; presence is modelled as truthy, and no claim exercises an
empty `file` dict.) -/
def fileItemNames (f : FileItem) : List String :=
  if pyTruthyStr f.name then [pyGetD f.name ""]
  else
    match f.file with
    | some fr =>
      let url := pyGetD fr.url ""
      [if url ≠ "" then lastSlashComponent url else "Unnamed file"]
    | none => []

/-- `_extract_property_value` (`main.py` lines 220–322).  `fmtIso`
models `convert_to_la(datetime.fromisoformat(·))` — the time-zone
conversion performed by the external `pytz`/`datetime` libraries — with
`none` for a raised `ValueError`, which the surrounding `try/except`
turns into a `None` return. -/
def extract_property_value (fmtIso : String → Option String) : NotionProp → Option String
  | .title spans => some (extract_rich_text spans)
  | .rich_text spans => some (extract_rich_text spans)
  | .number n => n.map (fun v => toString v)
  | .select sel =>
    match sel with
    | some o => o.name
    | none => none
  | .multi_select items =>
    if items.isEmpty then none
    else some (joinWith ", " (items.map (fun i => pyGetD i.name "")))
  | .date d =>
    match d with
    | none => none
    | some dv =>
      match dv.endv with
      | some e => if e = "" then dv.start else some (pyStrOpt dv.start ++ " to " ++ e)
      | none => dv.start
  | .checkbox b => some (if b then "Yes" else "No")
  | .url u => u
  | .email e => e
  | .phone_number p => p
  | .people ps =>
    if ps.isEmpty then none else some (joinWith ", " (ps.map personName))
  | .files fs =>
    let ns := fs.flatMap fileItemNames
    if ns.isEmpty then none else some (joinWith ", " ns)
  | .formula f =>
    match f with
    | .fstring s => s
    | .fnumber n => n.map (fun v => toString v)
    | .fboolean b => some (if b then "Yes" else "No")
    | .fdate d => d.bind DateVal.start
    | .funknown => none
  | .relation count => if count = 0 then none else some (toString count ++ " related items")
  | .rollup r =>
    match r with
    | .rnumber n => n.map (fun v => toString v)
    | .rarray k => if k = 0 then none else some (toString k ++ " items")
    | .runknown => none
  | .created_time ts => fmtIso (pyReplace (pyGetD ts "") "Z" "+00:00")
  | .last_edited_time ts => fmtIso (pyReplace (pyGetD ts "") "Z" "+00:00")
  | .created_by u => some (personName u)
  | .last_edited_by u => some (personName u)
  | .status s =>
    match s with
    | some o => o.name
    | none => none
  | .unknownProp => none

/-- A Notion page object, carrying the fields `build_metadata` and
`_extract_title` read. -/
structure NotionPage where
  id : String
  properties : List (String × NotionProp)
  created_time : Option String
  last_edited_time : Option String
  created_by : Option UserObj
  last_edited_by : Option UserObj
  url : Option String

/-- Python dict lookup over the insertion-ordered property list. -/
def lookupProp (props : List (String × NotionProp)) (k : String) : Option NotionProp :=
  (props.find? (fun p => p.1 == k)).map Prod.snd

/-- Whether a property payload has the `title` type tag. -/
def isTitleProp : NotionProp → Bool
  | .title _ => true
  | _ => false

/-- The key-probing loop of `_extract_title` (`main.py` lines 79–84). -/
def extractTitleGo (page : NotionPage) : List String → String
  | [] => "Untitled_" ++ String.mk (page.id.data.take 8)
  | k :: rest =>
    match lookupProp page.properties k with
    | some (NotionProp.title spans) =>
      let t := extract_rich_text spans
      if t = "" then "Untitled" else t
    | _ => extractTitleGo page rest

/-- `_extract_title`. -/
def extract_title (page : NotionPage) : String :=
  extractTitleGo page ["Title", "Name", "title", "name"]

/-- `prop_name.replace("_", " ").title()` (`main.py` line 351). -/
def displayName (name : String) : String := pyTitle (pyReplace name "_" " ")

/-- One iteration of the property loop of `build_metadata` (`main.py`
lines 343–352): a title property is skipped, and a `"Name: value"` line
is produced exactly when the extracted value is truthy
(`prop_value and prop_value.strip()`). -/
def propertyLineEntry (fmtIso : String → Option String) (name : String)
    (pd : NotionProp) : List String :=
  if isTitleProp pd then []
  else
    match extract_property_value fmtIso pd with
    | some v =>
      if v ≠ "" ∧ pyStrip v ≠ "" then [displayName name ++ ": " ++ v]
      else []
    | none => []

/-- The lines appended by the property loop of `build_metadata`, in
property order (each iteration appends zero or one line). -/
def propertyLines (fmtIso : String → Option String)
    (props : List (String × NotionProp)) : List String :=
  props.flatMap (fun p => propertyLineEntry fmtIso p.1 p.2)

/-- A conditional page-level timestamp line of `build_metadata`
(lines 358–364): present only for a truthy source value; a raised
`ValueError` from `fromisoformat` (modelled by `fmtIso` returning
`none`) propagates — the Python function would raise. -/
def pageTimeLine (fmtIso : String → Option String) (label : String)
    (ts : Option String) : Option (List String) :=
  if pyTruthyStr ts then
    match fmtIso (pyReplace (pyGetD ts "") "Z" "+00:00") with
    | some c => some [label ++ c]
    | none => none
  else some []

/-- `build_metadata` (`main.py` lines 325–378).  `nowStr` stands for the
wall-clock `convert_to_la(datetime.utcnow())` string; `fmtIso` is as in
`extract_property_value`. -/
def build_metadata (fmtIso : String → Option String) (nowStr : String)
    (page : NotionPage) : Option (List String) :=
  let title := extract_title page
  let head := ["Title: " ++ title, "Notion Page ID: " ++ page.id,
    "Last Synced: " ++ nowStr]
  let props := page.properties
  let propBlock :=
    if props.isEmpty then []
    else "" :: "== Page Properties ==" :: propertyLines fmtIso props
  let creatorLines :=
    match page.created_by with
    | some u => ["Created By: " ++ personName u]
    | none => []
  let editorLines :=
    match page.last_edited_by with
    | some u => ["Last Edited By: " ++ personName u]
    | none => []
  let urlLines :=
    if pyTruthyStr page.url then ["Notion URL: " ++ pyGetD page.url ""] else []
  (pageTimeLine fmtIso "Created: " page.created_time).bind fun createdLines =>
    (pageTimeLine fmtIso "Last Edited: " page.last_edited_time).bind fun editedLines =>
      some (head ++ propBlock ++ ["", "== Page Info =="] ++ createdLines ++
        editedLines ++ creatorLines ++ editorLines ++ urlLines ++ ["---"])

/-! ## URL id extraction (`slack-grounding-recommendations/utils.py`) -/

/-- The regex character class `[a-f0-9]`. -/
def isHexLower (c : Char) : Bool :=
  c.isDigit || (97 ≤ c.toNat && c.toNat ≤ 102)

/-- Match exactly `n` `[a-f0-9]` characters at the head, returning
`(matched, rest)`. -/
def takeHexN : Nat → Chars → Option (Chars × Chars)
  | 0, s => some ([], s)
  | _ + 1, [] => none
  | n + 1, c :: t =>
    if isHexLower c then (takeHexN n t).map (fun pr => (c :: pr.1, pr.2)) else none

/-- Match the regex `-?` at the head.  The pattern is greedy, but since
`-` is not in `[a-f0-9]`, the only path that can succeed consumes the
hyphen exactly when it is present, so no backtracking is needed and the
match is deterministic. -/
def optHyphen : Chars → (Chars × Chars)
  | '-' :: t => (['-'], t)
  | s => ([], s)

/-- The first regex alternative
`[a-f0-9]{8}-?[a-f0-9]{4}-?[a-f0-9]{4}-?[a-f0-9]{4}-?[a-f0-9]{12}`
anchored at the head, returning the matched text. -/
def uuidAlt1 (s : Chars) : Option Chars :=
  match takeHexN 8 s with
  | none => none
  | some (g1, r1) =>
    let pr1 := optHyphen r1
    match takeHexN 4 pr1.2 with
    | none => none
    | some (g2, r3) =>
      let pr2 := optHyphen r3
      match takeHexN 4 pr2.2 with
      | none => none
      | some (g3, r5) =>
        let pr3 := optHyphen r5
        match takeHexN 4 pr3.2 with
        | none => none
        | some (g4, r7) =>
          let pr4 := optHyphen r7
          match takeHexN 12 pr4.2 with
          | none => none
          | some (g5, _) =>
            some (g1 ++ pr1.1 ++ g2 ++ pr2.1 ++ g3 ++ pr3.1 ++ g4 ++ pr4.1 ++ g5)

/-- The second regex alternative `[a-f0-9]{32}` anchored at the head. -/
def uuidAlt2 (s : Chars) : Option Chars := (takeHexN 32 s).map Prod.fst

/-- An anchored match of the alternation (first alternative preferred, as
in Python `re`). -/
def uuidMatchAt (s : Chars) : Option Chars :=
  match uuidAlt1 s with
  | some g => some g
  | none => uuidAlt2 s

/-- `re.search` for the UUID pattern: the match at the leftmost position
where one exists. -/
def uuidSearch : Chars → Option Chars
  | [] => none
  | c :: t =>
    match uuidMatchAt (c :: t) with
    | some g => some g
    | none => uuidSearch t

/-- Whether the text contains 32 consecutive `[a-f0-9]` characters (a
"bare" 32-hex substring). -/
def hasBare32Hex : Chars → Bool
  | [] => false
  | c :: t => (takeHexN 32 (c :: t)).isSome || hasBare32Hex t

/-- The components of `urllib.parse.urlparse` that the source reads. -/
structure ParsedUrl where
  netloc : String
  path : String
  query : String
deriving DecidableEq, Repr

/-- Split the part after the authority into path and query (the fragment,
after `#`, is discarded as the source never reads it). -/
def splitPathQuery (after : Chars) : Chars × Chars :=
  let path := after.takeWhile (fun c => c ≠ '?' && c ≠ '#')
  let rest := after.drop path.length
  match rest with
  | '?' :: q => (path, q.takeWhile (fun c => c ≠ '#'))
  | _ => (path, [])

/-- `urllib.parse.urlparse`, modelled for the scheme-qualified URLs the
normalization step always produces (CPython takes the authority as the
text between `//` and the next `/`, `?` or `#`; for inputs without
`://` — unreachable here — everything is path, as in CPython for inputs
without a netloc). -/
def urlparseModel (url : String) : ParsedUrl :=
  match splitOnce "://".data url.data with
  | none =>
    let pq := splitPathQuery url.data
    { netloc := "", path := String.mk pq.1, query := String.mk pq.2 }
  | some pr =>
    let netloc := pr.2.takeWhile (fun c => c ≠ '/' && c ≠ '?' && c ≠ '#')
    let after := pr.2.drop netloc.length
    let pq := splitPathQuery after
    { netloc := String.mk netloc, path := String.mk pq.1, query := String.mk pq.2 }

/-- Whether a character is a hex digit in either case. -/
def isHexDigitAny (c : Char) : Bool :=
  c.isDigit || (97 ≤ c.toNat && c.toNat ≤ 102) || (65 ≤ c.toNat && c.toNat ≤ 70)

/-- Numeric value of a hex digit. -/
def hexVal (c : Char) : Nat :=
  if 97 ≤ c.toNat then c.toNat - 87
  else if 65 ≤ c.toNat then c.toNat - 55
  else c.toNat - 48

/-- `urllib.parse.unquote_plus`: `+` becomes a space and `%XX` decodes to
the byte `XX` (decoded per byte; CPython additionally UTF-8-decodes
multi-byte sequences, which agrees on the ASCII range — no claim
exercises non-ASCII percent-escapes). -/
def unquotePlus : Chars → Chars
  | [] => []
  | '+' :: t => ' ' :: unquotePlus t
  | '%' :: h1 :: h2 :: t =>
    if isHexDigitAny h1 && isHexDigitAny h2 then
      Char.ofNat (16 * hexVal h1 + hexVal h2) :: unquotePlus t
    else '%' :: unquotePlus (h1 :: h2 :: t)
  | c :: t => c :: unquotePlus t

/-- `urllib.parse.parse_qsl` with default arguments: split on `&`, split
each field at its first `=`, skip fields with no `=` or an empty value,
and percent-plus-decode names and values. -/
def parseQsl (query : String) : List (String × String) :=
  (pySplit "&" query).filterMap (fun field =>
    match splitOnce ['='] field.data with
    | none => none
    | some pr =>
      if pr.2 = [] then none
      else some (String.mk (unquotePlus pr.1), String.mk (unquotePlus pr.2)))

/-- Group `parse_qsl` pairs into the `parse_qs` dict: keys in first-seen
order, each with its values in order. -/
def groupQs (pairs : List (String × String)) : List (String × List String) :=
  pairs.foldl (fun acc p =>
    if acc.any (fun kv => kv.1 == p.1) then
      acc.map (fun kv => if kv.1 == p.1 then (kv.1, kv.2 ++ [p.2]) else kv)
    else acc ++ [(p.1, [p.2])]) []

/-- `urllib.parse.parse_qs`. -/
def parse_qs (query : String) : List (String × List String) := groupQs (parseQsl query)

/-- `match.group(1).replace('-', '')`. -/
def removeHyphens (g : Chars) : String := String.mk (pyReplaceCh ['-'] [] g)

/-- The per-path-part loop of `parse_notion_url` (lines 72–76): first
part whose lower-casing contains a pattern match. -/
def firstMatch : List String → Option Chars
  | [] => none
  | p :: rest =>
    match uuidSearch (pyLower p).data with
    | some g => some g
    | none => firstMatch rest

/-- The query-parameter loop of `parse_notion_url` (lines 79–84). -/
def firstMatchQs : List (String × List String) → Option Chars
  | [] => none
  | (_, vs) :: rest =>
    match firstMatch vs with
    | some g => some g
    | none => firstMatchQs rest

/-- The normalization prologue of `parse_notion_url` (lines 51–54). -/
def pnormalize (url : String) : String :=
  let url := pyStrip url
  if pyStartswith url "http://" || pyStartswith url "https://" then url
  else "https://" ++ url

/-- `parse_notion_url` (`utils.py` lines 22–90).  Every operation in the
Python body is total on strings, so the `except` branch is unreachable. -/
def parse_notion_url (url : String) : Option String :=
  if url = "" then none
  else
    let nurl := pnormalize url
    match uuidSearch (pyLower nurl).data with
    | some g => some (removeHyphens g)
    | none =>
      let parsed := urlparseModel nurl
      if pyEndswith parsed.netloc "notion.so" = false then none
      else
        let pathParts := (pySplit "/" parsed.path).filter (fun p => p ≠ "")
        match firstMatch pathParts with
        | some g => some (removeHyphens g)
        | none =>
          match firstMatchQs (parse_qs parsed.query) with
          | some g => some (removeHyphens g)
          | none => none

theorem ptDfs_append : ∀ xs ys : Blocks,
    ptDfs (Blocks.append xs ys) = ptDfs xs ++ ptDfs ys
  | Blocks.nil, ys => rfl
  | Blocks.cons (Block.mk ty rt ch) t, ys => by
    simp only [Blocks.append, ptDfs, ptDfs_append t ys, List.cons_append,
      List.append_assoc]

theorem htmlDfs_append : ∀ xs ys : Blocks,
    htmlDfs (Blocks.append xs ys) = htmlDfs xs ++ htmlDfs ys
  | Blocks.nil, ys => rfl
  | Blocks.cons (Block.mk ty rt ch) t, ys => by
    simp only [Blocks.append, htmlDfs, htmlDfs_append t ys, List.append_assoc]

/-! ## Webhook entry point (`notion-drive-sync/main.py` lines 405–495) -/

/-- The environment configuration the entry point reads:
`NOTION_VERIFICATION_TOKEN` (default `""`) and the optional
`NOTION_PAGE_ID` fallback. -/
structure SyncEnv where
  verification_token : String
  notion_page_id : Option String

/-- The nested `page` object of the request payload. -/
structure PayloadPage where
  id : Option String

/-- The JSON request payload fields the entry point reads. -/
structure SyncPayload where
  page : Option PayloadPage
  id : Option String

/-- The inbound HTTP request: headers and the parsed JSON body.
`payload = none` models both a missing/invalid body and a raised parse
error — the source turns each into `{}` (`get_json(silent=True) or {}`
and the `except` branch). -/
structure SyncRequest where
  headers : List (String × String)
  payload : Option SyncPayload

/-- `request.headers.get(key, "")`. -/
def headerGet (hs : List (String × String)) (k d : String) : String :=
  match hs.find? (fun p => p.1 == k) with
  | some p => p.2
  | none => d

/-- Python `a or b` on two `Optional[str]` values (`None` and `""` are
falsy). -/
def pyOrOpt (a b : Option String) : Option String :=
  match a with
  | none => b
  | some s => if s = "" then b else some s

/-- The observable outcome of one invocation: response body, HTTP
status, and — in place of the detached background thread — the page id a
sync was started for (`none` = no sync work started). -/
structure SyncResponse where
  body : String
  status : Nat
  sync : Option String
deriving DecidableEq, Repr

/-- The exact `json.dumps` body of the accepted-sync response. -/
def startedBody : String :=
  "\x7b\"status\": \"started\", \"message\": \"Sync started successfully! Please wait 10-30 seconds for the documents to appear in your Drive folders. Check your Google Drive for the updated files.\"\x7d"

/-- The entry point after webhook validation (`main.py` lines 418–495). -/
def syncAfterAuth (env : SyncEnv) (req : SyncRequest) : SyncResponse :=
  let payload := req.payload.getD { page := none, id := none }
  let pid := pyOrOpt (pyOrOpt (payload.page.bind PayloadPage.id) payload.id)
    env.notion_page_id
  match pid with
  | none => { body := "No page_id provided", status := 200, sync := none }
  | some p =>
    if p = "" then { body := "No page_id provided", status := 200, sync := none }
    else { body := startedBody, status := 200, sync := some (pyReplace p "-" "") }

/-- `sync_notion_to_drive` (`main.py` lines 405–495): optional webhook
validation, then payload handling and the immediate-success response
(the background thread is summarized by the `sync` field). -/
def sync_notion_to_drive (env : SyncEnv) (req : SyncRequest) : SyncResponse :=
  if env.verification_token ≠ "" then
    let sig := headerGet req.headers "X-Notion-Signature" ""
    if sig ≠ env.verification_token then
      { body := "invalid signature", status := 200, sync := none }
    else syncAfterAuth env req
  else syncAfterAuth env req

/-! ## Concrete fixtures for the parser claims -/

/-- A well-formed suggestion body: every field marker present, in order. -/
def wfSuggestionBody : String :=
  "**Source Message Link:** https://slack.example/archives/C1/p100\n" ++
  "**Thread Context:** Team agreed to use v2\n" ++
  "**Triggering Text:** \"switch to v2\"\n" ++
  "**Conflicting Block ID:** \"abc123\"\n" ++
  "**Conflicting Text in Block:** \"service uses v1\"\n" ++
  "**Suggested Edit:** \"service uses v2\"\n" ++
  "**Reasoning:** The version changed\n" ++
  "**Confidence Score:** High"

/-- A model response consisting of exactly one well-formed suggestion
block. -/
def wfSuggestionResponse : String :=
  "Findings below.\n\n**Suggestion 1**\n" ++ wfSuggestionBody

/-- The record the parser extracts from `wfSuggestionResponse`: each
field is the text between its marker and the next, stripped. -/
def wfSuggestionRecord : Suggestion :=
  { source_message_link := "https://slack.example/archives/C1/p100"
    thread_context := "Team agreed to use v2"
    triggering_text := "switch to v2"
    block_id := "abc123"
    conflicting_text := "service uses v1"
    suggested_edit := "service uses v2"
    reasoning := "The version changed"
    confidence_score := "High" }

/-- A response consisting of exactly one malformed suggestion block: no
field marker occurs in it at all. -/
def malformedResponse : String := "**Suggestion 1**\nnothing useful here"

/-- The record the parser emits for `malformedResponse`: each failed
`find` returns `-1`, so the slices land on garbage (here: mostly empty
strings and stray fragments), but a record is appended all the same. -/
def malformedRecord : Suggestion :=
  { source_message_link := ""
    thread_context := "l her"
    triggering_text := "her"
    block_id := ""
    conflicting_text := ""
    suggested_edit := "l her"
    reasoning := "useful her"
    confidence_score := "here" }

/-- One malformed block followed by one well-formed block. -/
def mixedResponse : String :=
  "**Suggestion 1**\nnothing useful here\n\n**Suggestion 2**\n" ++ wfSuggestionBody

/-- The garbage record the malformed block of `mixedResponse` yields. -/
def mixedGarbageRecord : Suggestion :=
  { source_message_link := "e"
    thread_context := "l here"
    triggering_text := "here"
    block_id := ""
    conflicting_text := ""
    suggested_edit := "l here"
    reasoning := "useful here"
    confidence_score := "here" }

theorem pySplitCh_ne_nil (sep s : Chars) : pySplitCh sep s ≠ [] := by
  show pySplitF sep (s.length + 1) s ≠ []
  simp only [pySplitF]
  cases splitOnce sep s <;> simp

/-! ## The claims -/

/-- C1: both renderers emit output in document order — each node's own
line(s) come before the rendered output of its children, children are
fully rendered depth-first before the next sibling contributes, and
sibling order is preserved: each renderer equals the newline-join of the
flat depth-first emission sequence (`ptDfs`/`htmlDfs`), and that
sequence is concatenative over sibling lists. -/
theorem claim_C1_render_order :
    (∀ bs : Blocks, blocks_to_plaintext bs = joinLines (ptDfs bs)) ∧
    (∀ bs : Blocks, blocks_to_html bs = joinLines (htmlDfs bs)) ∧
    (∀ xs ys : Blocks, ptDfs (Blocks.append xs ys) = ptDfs xs ++ ptDfs ys) ∧
    (∀ xs ys : Blocks, htmlDfs (Blocks.append xs ys) = htmlDfs xs ++ htmlDfs ys) :=
  ⟨blocks_to_plaintext_eq_dfs, blocks_to_html_eq_dfs, ptDfs_append, htmlDfs_append⟩

/-- C2: `html_escape` escapes all five HTML-reserved characters (it
equals the per-character escape map `specEscape`), unescaping its output
reproduces any input free of the five reserved characters, and the
heading node with text `Q&A: A<B` renders to `<h1>Q&amp;A: A&lt;B</h1>`. -/
theorem claim_C2_escape_roundtrip :
    (∀ s : String, html_escape s = specEscape s) ∧
    (∀ s : String, (∀ c ∈ s.data, c ∉ htmlReserved) →
      htmlUnescape (html_escape s) = s) ∧
    blocks_to_html
        (Blocks.cons (Block.mk "heading_1" [⟨"Q&A: A<B"⟩] Blocks.nil) Blocks.nil)
      = "<h1>Q&amp;A: A&lt;B</h1>" := by
  refine ⟨html_escape_eq_specEscape, ?_, rfl⟩
  intro s h
  rw [html_escape_id s h]
  exact htmlUnescape_id s (fun hm => h '&' hm (by simp [htmlReserved]))

/-- Witness for C2 at a concrete reserved-character-free input. -/
theorem claim_C2_escape_roundtrip_witness :
    htmlUnescape (html_escape "plain text 123") = "plain text 123" :=
  claim_C2_escape_roundtrip.2.1 "plain text 123" (by decide)

set_option maxRecDepth 100000 in
/-- C3: the parser returns `[]` for the literal sentinel response, and
exactly one record — all labelled fields populated from the text between
their markers — for a response of exactly one well-formed block. -/
theorem claim_C3_sentinel_and_wellformed :
    parse_suggestions "No suggestions found." = [] ∧
    parse_suggestions wfSuggestionResponse = [wfSuggestionRecord] :=
  ⟨rfl, rfl⟩

set_option maxRecDepth 100000 in
/-- C4 counterexample: a response whose only block is malformed — none
of the eight field markers occurs in it — nevertheless yields one
(garbage-filled) record, not zero: the parser does not skip malformed
blocks, contradicting the claim that it skips each malformed block. -/
theorem claim_C4_counterexample :
    pyContains malformedResponse mSrc = false ∧
    pyContains malformedResponse mCtx = false ∧
    pyContains malformedResponse mTrig = false ∧
    pyContains malformedResponse mBlock = false ∧
    pyContains malformedResponse mConfl = false ∧
    pyContains malformedResponse mEdit = false ∧
    pyContains malformedResponse mReason = false ∧
    pyContains malformedResponse mScore = false ∧
    parse_suggestions malformedResponse = [malformedRecord] :=
  ⟨rfl, rfl, rfl, rfl, rfl, rfl, rfl, rfl, rfl⟩

set_option maxRecDepth 100000 in
/-- C4 (amended): a malformed block never causes the batch parse to
abort or an exception to reach the caller — every operation in the loop
body is total — but malformed blocks are not skipped: every
`**Suggestion` section yields exactly one record (garbled or empty
fields where markers are missing), and well-formed sections still yield
correctly populated records. -/
theorem claim_C4_no_skip :
    (∀ response : String, pyContains response "No suggestions found." = false →
      (parse_suggestions response).length + 1 =
        (pySplit "**Suggestion" response).length) ∧
    parse_suggestions mixedResponse = [mixedGarbageRecord, wfSuggestionRecord] := by
  constructor
  · intro r h
    unfold parse_suggestions
    rw [if_neg (by simp [h])]
    rw [List.length_map, List.length_drop]
    have hne := pySplitCh_ne_nil "**Suggestion".data r.data
    have hlen : 0 < (pySplit "**Suggestion" r).length := by
      unfold pySplit
      rw [List.length_map]
      exact List.length_pos.mpr hne
    omega
  · rfl

set_option maxRecDepth 100000 in
/-- Witness for the amended C4 at the concrete mixed response. -/
theorem claim_C4_no_skip_witness :
    (parse_suggestions mixedResponse).length + 1 =
      (pySplit "**Suggestion" mixedResponse).length :=
  claim_C4_no_skip.1 mixedResponse rfl

/-- C9: with a non-empty verification token configured and a
non-matching signature header, the entry point answers HTTP 200 with the
warning body and starts no sync work. -/
theorem claim_C9_auth_mismatch (env : SyncEnv) (req : SyncRequest)
    (htok : env.verification_token ≠ "")
    (hsig : headerGet req.headers "X-Notion-Signature" "" ≠ env.verification_token) :
    sync_notion_to_drive env req =
      { body := "invalid signature", status := 200, sync := none } := by
  unfold sync_notion_to_drive
  rw [if_pos htok, if_pos hsig]

/-- Witness for C9 at a concrete environment and request. -/
theorem claim_C9_auth_mismatch_witness :
    sync_notion_to_drive
        { verification_token := "secret-token", notion_page_id := some "fallback" }
        { headers := [("X-Notion-Signature", "wrong")],
          payload := some { page := some { id := some "abc" }, id := none } } =
      { body := "invalid signature", status := 200, sync := none } :=
  claim_C9_auth_mismatch _ _ (by decide) (by decide)

/-- The type tags `blocks_to_html` recognizes. -/
def recognizedHtmlTypes : List String :=
  ["paragraph", "heading_1", "heading_2", "heading_3", "bulleted_list_item",
   "numbered_list_item", "code", "quote", "divider"]

/-- C6: the plain-text mapping rules — headings upper-case their text,
bulleted items get `"- "`, numbered items `"1. "`, quotes `"> "`,
dividers emit the three-line rule marker `"\n---\n"`, everything else is
verbatim — and the concrete two-node tree (heading `Title`, paragraph
`Body`) renders to `"TITLE\nBody"` and
`"<h1>Title</h1>\n<p>Body</p>"`. -/
theorem claim_C6_plaintext_mapping :
    (∀ (ty : String) (rt : List Span) (ch : Blocks),
      pyStartswith ty "heading_" = true →
      ptLine (Block.mk ty rt ch) = pyUpper (extract_rich_text rt)) ∧
    (∀ (rt : List Span) (ch : Blocks),
      ptLine (Block.mk "bulleted_list_item" rt ch) = "- " ++ extract_rich_text rt) ∧
    (∀ (rt : List Span) (ch : Blocks),
      ptLine (Block.mk "numbered_list_item" rt ch) = "1. " ++ extract_rich_text rt) ∧
    (∀ (rt : List Span) (ch : Blocks),
      ptLine (Block.mk "quote" rt ch) = "> " ++ extract_rich_text rt) ∧
    (∀ (rt : List Span) (ch : Blocks),
      ptLine (Block.mk "divider" rt ch) = "\n---\n") ∧
    (∀ (ty : String) (rt : List Span) (ch : Blocks),
      pyStartswith ty "heading_" = false →
      ty ∉ ["bulleted_list_item", "numbered_list_item", "quote", "divider"] →
      ptLine (Block.mk ty rt ch) = extract_rich_text rt) ∧
    blocks_to_plaintext
        (Blocks.cons (Block.mk "heading_1" [⟨"Title"⟩] Blocks.nil)
          (Blocks.cons (Block.mk "paragraph" [⟨"Body"⟩] Blocks.nil) Blocks.nil))
      = "TITLE\nBody" ∧
    blocks_to_html
        (Blocks.cons (Block.mk "heading_1" [⟨"Title"⟩] Blocks.nil)
          (Blocks.cons (Block.mk "paragraph" [⟨"Body"⟩] Blocks.nil) Blocks.nil))
      = "<h1>Title</h1>\n<p>Body</p>" := by
  refine ⟨?_, fun rt ch => rfl, fun rt ch => rfl, fun rt ch => rfl, fun rt ch => rfl,
    ?_, rfl, rfl⟩
  · intro ty rt ch h
    have hnd : ty ≠ "divider" := by
      intro e
      subst e
      exact absurd h (by decide)
    simp [ptLine, Block.type, Block.rich_text, h, hnd]
  · intro ty rt ch h hmem
    simp only [List.mem_cons, List.not_mem_nil, or_false, not_or] at hmem
    simp [ptLine, Block.type, Block.rich_text, h, hmem.1, hmem.2.1, hmem.2.2.1,
      hmem.2.2.2]

/-- Witness for C6 at concrete heading and unrecognized-type blocks. -/
theorem claim_C6_plaintext_mapping_witness :
    ptLine (Block.mk "heading_2" [⟨"hi"⟩] Blocks.nil)
        = pyUpper (extract_rich_text [⟨"hi"⟩]) ∧
    ptLine (Block.mk "callout" [⟨"note"⟩] Blocks.nil)
        = extract_rich_text [⟨"note"⟩] :=
  ⟨claim_C6_plaintext_mapping.1 "heading_2" [⟨"hi"⟩] Blocks.nil (by decide),
   claim_C6_plaintext_mapping.2.2.2.2.2.1 "callout" [⟨"note"⟩] Blocks.nil
     (by decide) (by decide)⟩

/-- C7: a block with an unrecognized type tag contributes no HTML of its
own, but its children are still rendered: its own part list is empty and
rendering the single-node list equals rendering its children. -/
theorem claim_C7_unrecognized_html (ty : String) (rt : List Span) (ch : Blocks)
    (h : ty ∉ recognizedHtmlTypes) :
    htmlOwn (Block.mk ty rt ch) = [] ∧
    blocks_to_html (Blocks.cons (Block.mk ty rt ch) Blocks.nil)
      = blocks_to_html ch := by
  simp only [recognizedHtmlTypes, List.mem_cons, List.not_mem_nil, or_false,
    not_or] at h
  have hown : htmlOwn (Block.mk ty rt ch) = [] := by
    simp [htmlOwn, Block.type, h.1, h.2.1, h.2.2.1, h.2.2.2.1, h.2.2.2.2.1,
      h.2.2.2.2.2.1, h.2.2.2.2.2.2.1, h.2.2.2.2.2.2.2.1, h.2.2.2.2.2.2.2.2]
  refine ⟨hown, ?_⟩
  show joinLines (htmlLoop _) = _
  cases ch with
  | nil =>
    simp only [htmlLoop, Blocks.isNil, if_pos, hown]
    rfl
  | cons c ct =>
    simp only [htmlLoop, Blocks.isNil, hown]
    rw [if_neg (by simp)]
    rfl

/-- Witness for C7 at a concrete unrecognized node with a paragraph
child. -/
theorem claim_C7_unrecognized_html_witness :
    htmlOwn (Block.mk "toggle" [⟨"t"⟩]
        (Blocks.cons (Block.mk "paragraph" [⟨"x"⟩] Blocks.nil) Blocks.nil)) = [] ∧
    blocks_to_html (Blocks.cons (Block.mk "toggle" [⟨"t"⟩]
        (Blocks.cons (Block.mk "paragraph" [⟨"x"⟩] Blocks.nil) Blocks.nil)) Blocks.nil)
      = blocks_to_html (Blocks.cons (Block.mk "paragraph" [⟨"x"⟩] Blocks.nil) Blocks.nil) :=
  claim_C7_unrecognized_html "toggle" [⟨"t"⟩]
    (Blocks.cons (Block.mk "paragraph" [⟨"x"⟩] Blocks.nil) Blocks.nil) (by decide)

theorem propertyLineEntry_mem (fmtIso : String → Option String) (name : String)
    (pd : NotionProp) (line : String) :
    line ∈ propertyLineEntry fmtIso name pd ↔
      isTitleProp pd = false ∧ ∃ v, extract_property_value fmtIso pd = some v ∧
        pyStrip v ≠ "" ∧ line = displayName name ++ ": " ++ v := by
  unfold propertyLineEntry
  split
  · rename_i ht
    simp [ht]
  · rename_i ht
    split
    · rename_i v hx
      split
      · rename_i hc
        simp only [List.mem_singleton]
        constructor
        · intro he
          exact ⟨by simpa using ht, v, hx, hc.2, he⟩
        · rintro ⟨_, v', hv', _, he⟩
          have hvv : v' = v := Option.some.inj (hv'.symm.trans hx)
          rw [hvv] at he
          exact he
      · rename_i hc
        simp only [List.not_mem_nil, false_iff]
        rintro ⟨_, v', hv', hs, _⟩
        have hvv : v' = v := Option.some.inj (hv'.symm.trans hx)
        rw [hvv] at hs
        exact hc ⟨fun e => hs (by rw [e]; rfl), hs⟩
    · rename_i hx
      simp [hx]

theorem propertyLines_sound (fmtIso : String → Option String) :
    ∀ (props : List (String × NotionProp)), ∀ line ∈ propertyLines fmtIso props,
      ∃ n pd v, (n, pd) ∈ props ∧ isTitleProp pd = false ∧
        extract_property_value fmtIso pd = some v ∧ pyStrip v ≠ "" ∧
        line = displayName n ++ ": " ++ v := by
  intro props line h
  unfold propertyLines at h
  rcases List.mem_flatMap.mp h with ⟨p, hp, hline⟩
  rcases (propertyLineEntry_mem fmtIso p.1 p.2 line).mp hline with ⟨ht, v, hx, hs, he⟩
  exact ⟨p.1, p.2, v, by simpa using hp, ht, hx, hs, he⟩

theorem propertyLines_complete (fmtIso : String → Option String) :
    ∀ (props : List (String × NotionProp)) (n : String) (pd : NotionProp) (v : String),
      (n, pd) ∈ props → isTitleProp pd = false →
      extract_property_value fmtIso pd = some v → pyStrip v ≠ "" →
      (displayName n ++ ": " ++ v) ∈ propertyLines fmtIso props := by
  intro props n pd v hmem ht hx hv
  unfold propertyLines
  refine List.mem_flatMap.mpr ⟨(n, pd), hmem, ?_⟩
  exact (propertyLineEntry_mem fmtIso n pd _).mpr ⟨ht, v, hx, hv, rfl⟩

theorem build_metadata_infix (fmtIso : String → Option String) (nowStr : String)
    (page : NotionPage) (ls : List String)
    (h : build_metadata fmtIso nowStr page = some ls) :
    ∃ pre post, ls = pre ++ propertyLines fmtIso page.properties ++ post := by
  unfold build_metadata at h
  rcases Option.bind_eq_some.mp h with ⟨cl, hcl, h2⟩
  rcases Option.bind_eq_some.mp h2 with ⟨el, hel, h3⟩
  have hls := Option.some.inj h3
  by_cases hprops : page.properties.isEmpty = true
  · have : page.properties = [] := List.isEmpty_iff.mp hprops
    refine ⟨ls, [], ?_⟩
    rw [this]
    simp [propertyLines]
  · rw [if_neg hprops] at hls
    refine ⟨["Title: " ++ extract_title page, "Notion Page ID: " ++ page.id,
      "Last Synced: " ++ nowStr] ++ ["", "== Page Properties =="],
      ["", "== Page Info =="] ++ cl ++ el ++
        (match page.created_by with
         | some u => ["Created By: " ++ personName u]
         | none => []) ++
        (match page.last_edited_by with
         | some u => ["Last Edited By: " ++ personName u]
         | none => []) ++
        (if pyTruthyStr page.url then ["Notion URL: " ++ pyGetD page.url ""] else []) ++
        ["---"], ?_⟩
    rw [← hls]
    simp [List.append_assoc]

/-- C8: `build_metadata` never emits a property line with an empty or
whitespace-only value — every line of the property loop comes from a
non-title property whose extracted value strips to something non-empty
(soundness), every such property contributes its `"Name: value"` line
(completeness), and the property-loop lines appear contiguously inside
every successfully built metadata line list. -/
theorem claim_C8_metadata_filter :
    (∀ (fmtIso : String → Option String) (props : List (String × NotionProp)),
      ∀ line ∈ propertyLines fmtIso props,
        ∃ n pd v, (n, pd) ∈ props ∧ isTitleProp pd = false ∧
          extract_property_value fmtIso pd = some v ∧ pyStrip v ≠ "" ∧
          line = displayName n ++ ": " ++ v) ∧
    (∀ (fmtIso : String → Option String) (props : List (String × NotionProp))
      (n : String) (pd : NotionProp) (v : String),
      (n, pd) ∈ props → isTitleProp pd = false →
      extract_property_value fmtIso pd = some v → pyStrip v ≠ "" →
      (displayName n ++ ": " ++ v) ∈ propertyLines fmtIso props) ∧
    (∀ (fmtIso : String → Option String) (nowStr : String) (page : NotionPage)
      (ls : List String), build_metadata fmtIso nowStr page = some ls →
      ∃ pre post, ls = pre ++ propertyLines fmtIso page.properties ++ post) :=
  ⟨propertyLines_sound, propertyLines_complete, build_metadata_infix⟩

/-- Witness for C8: a concrete multi-select property with value
`"a, b"` contributes its line. -/
theorem claim_C8_metadata_filter_witness :
    (displayName "reading_list" ++ ": " ++ "a, b") ∈
      propertyLines (fun s => some s)
        [("reading_list", NotionProp.multi_select [⟨some "a"⟩, ⟨some "b"⟩])] :=
  claim_C8_metadata_filter.2.1 (fun s => some s) _ "reading_list"
    (NotionProp.multi_select [⟨some "a"⟩, ⟨some "b"⟩]) "a, b"
    (List.mem_cons_self _ _) rfl rfl (by decide)

/-! ### Normal form of extracted ids (C10) and the search lemmas (C5) -/

theorem hex_ne_hyphen (c : Char) (h : isHexLower c = true) : c ≠ '-' := by
  intro e
  subst e
  exact absurd h (by decide)

theorem takeHexN_spec : ∀ (n : Nat) (s m r : Chars), takeHexN n s = some (m, r) →
    m.length = n ∧ m.all isHexLower = true ∧ s = m ++ r := by
  intro n
  induction n with
  | zero =>
    intro s m r h
    simp only [takeHexN, Option.some.injEq, Prod.mk.injEq] at h
    rcases h with ⟨hm, hr⟩
    subst hm; subst hr
    exact ⟨rfl, rfl, rfl⟩
  | succ k ih =>
    intro s m r h
    cases s with
    | nil => cases h
    | cons c t =>
      simp only [takeHexN] at h
      by_cases hc : isHexLower c = true
      · rw [if_pos hc] at h
        cases hx : takeHexN k t with
        | none => rw [hx] at h; cases h
        | some pr =>
          rw [hx] at h
          simp only [Option.map_some', Option.some.injEq, Prod.mk.injEq] at h
          rcases h with ⟨hm, hr⟩
          obtain ⟨l1, l2, l3⟩ := ih t pr.1 pr.2 (by rw [hx])
          subst hm; subst hr
          refine ⟨by simp [l1], ?_, by simp [l3]⟩
          simp [List.all_cons, hc, l2]
      · rw [if_neg hc] at h; cases h

theorem filter_hyphen_of_hex (m : Chars) (hall : m.all isHexLower = true) :
    m.filter (fun c => c ≠ '-') = m := by
  apply List.filter_eq_self.mpr
  intro c hc
  have := List.all_eq_true.mp hall c hc
  simp [hex_ne_hyphen c this]

theorem optHyphen_filter (r : Chars) :
    (optHyphen r).1.filter (fun c => c ≠ '-') = [] := by
  unfold optHyphen
  split
  · rfl
  · rfl

/-- The hyphen-stripped text of any match of the first alternative is 32
hex characters. -/
theorem uuidAlt1_spec (s g : Chars) (h : uuidAlt1 s = some g) :
    (g.filter (fun c => c ≠ '-')).length = 32 ∧
    (g.filter (fun c => c ≠ '-')).all isHexLower = true := by
  unfold uuidAlt1 at h
  cases h8 : takeHexN 8 s with
  | none => rw [h8] at h; cases h
  | some p8 =>
    rw [h8] at h
    simp only at h
    cases h4a : takeHexN 4 (optHyphen p8.2).2 with
    | none => rw [h4a] at h; cases h
    | some p4a =>
      rw [h4a] at h
      simp only at h
      cases h4b : takeHexN 4 (optHyphen p4a.2).2 with
      | none => rw [h4b] at h; cases h
      | some p4b =>
        rw [h4b] at h
        simp only at h
        cases h4c : takeHexN 4 (optHyphen p4b.2).2 with
        | none => rw [h4c] at h; cases h
        | some p4c =>
          rw [h4c] at h
          simp only at h
          cases h12 : takeHexN 12 (optHyphen p4c.2).2 with
          | none => rw [h12] at h; cases h
          | some p12 =>
            rw [h12] at h
            simp only [Option.some.injEq] at h
            obtain ⟨a1, b1, _⟩ := takeHexN_spec 8 s p8.1 p8.2 (by rw [h8])
            obtain ⟨a2, b2, _⟩ := takeHexN_spec 4 _ p4a.1 p4a.2 (by rw [h4a])
            obtain ⟨a3, b3, _⟩ := takeHexN_spec 4 _ p4b.1 p4b.2 (by rw [h4b])
            obtain ⟨a4, b4, _⟩ := takeHexN_spec 4 _ p4c.1 p4c.2 (by rw [h4c])
            obtain ⟨a5, b5, _⟩ := takeHexN_spec 12 _ p12.1 p12.2 (by rw [h12])
            subst h
            rw [List.filter_append, List.filter_append, List.filter_append,
              List.filter_append, List.filter_append, List.filter_append,
              List.filter_append, List.filter_append,
              filter_hyphen_of_hex _ b1, filter_hyphen_of_hex _ b2,
              filter_hyphen_of_hex _ b3, filter_hyphen_of_hex _ b4,
              filter_hyphen_of_hex _ b5, optHyphen_filter, optHyphen_filter,
              optHyphen_filter, optHyphen_filter]
            constructor
            · simp [a1, a2, a3, a4, a5]
            · simp only [List.all_append, List.all_nil, Bool.and_true, b1, b2, b3,
                b4, b5, Bool.and_self, Bool.true_and]

theorem uuidAlt2_spec (s g : Chars) (h : uuidAlt2 s = some g) :
    (g.filter (fun c => c ≠ '-')).length = 32 ∧
    (g.filter (fun c => c ≠ '-')).all isHexLower = true := by
  unfold uuidAlt2 at h
  cases h32 : takeHexN 32 s with
  | none => rw [h32] at h; cases h
  | some pr =>
    rw [h32] at h
    simp only [Option.map_some', Option.some.injEq] at h
    obtain ⟨a, b, _⟩ := takeHexN_spec 32 s pr.1 pr.2 (by rw [h32])
    subst h
    rw [filter_hyphen_of_hex _ b]
    exact ⟨a, b⟩

theorem uuidMatchAt_spec (s g : Chars) (h : uuidMatchAt s = some g) :
    (g.filter (fun c => c ≠ '-')).length = 32 ∧
    (g.filter (fun c => c ≠ '-')).all isHexLower = true := by
  unfold uuidMatchAt at h
  cases h1 : uuidAlt1 s with
  | some g1 =>
    rw [h1] at h
    simp only [Option.some.injEq] at h
    subst h
    exact uuidAlt1_spec s g1 h1
  | none =>
    rw [h1] at h
    simp only at h
    exact uuidAlt2_spec s g h

theorem uuidSearch_spec : ∀ (cs g : Chars), uuidSearch cs = some g →
    (g.filter (fun c => c ≠ '-')).length = 32 ∧
    (g.filter (fun c => c ≠ '-')).all isHexLower = true := by
  intro cs
  induction cs with
  | nil => intro g h; cases h
  | cons c t ih =>
    intro g h
    simp only [uuidSearch] at h
    cases hm : uuidMatchAt (c :: t) with
    | some g1 =>
      rw [hm] at h
      simp only [Option.some.injEq] at h
      subst h
      exact uuidMatchAt_spec _ g1 hm
    | none =>
      rw [hm] at h
      simp only at h
      exact ih g h

theorem firstMatch_spec : ∀ (ps : List String) (g : Chars),
    firstMatch ps = some g → ∃ p ∈ ps, uuidSearch (pyLower p).data = some g := by
  intro ps
  induction ps with
  | nil => intro g h; cases h
  | cons p t ih =>
    intro g h
    simp only [firstMatch] at h
    cases hm : uuidSearch (pyLower p).data with
    | some g1 =>
      rw [hm] at h
      simp only [Option.some.injEq] at h
      subst h
      exact ⟨p, List.mem_cons_self _ _, hm⟩
    | none =>
      rw [hm] at h
      simp only at h
      obtain ⟨q, hq, hsq⟩ := ih g h
      exact ⟨q, List.mem_cons_of_mem _ hq, hsq⟩

theorem firstMatchQs_spec : ∀ (qs : List (String × List String)) (g : Chars),
    firstMatchQs qs = some g →
    ∃ v, uuidSearch (pyLower v).data = some g := by
  intro qs
  induction qs with
  | nil => intro g h; cases h
  | cons kv t ih =>
    rcases kv with ⟨k, vs⟩
    intro g h
    simp only [firstMatchQs] at h
    cases hm : firstMatch vs with
    | some g1 =>
      rw [hm] at h
      simp only [Option.some.injEq] at h
      subst h
      obtain ⟨p, _, hp⟩ := firstMatch_spec vs g1 hm
      exact ⟨p, hp⟩
    | none =>
      rw [hm] at h
      simp only at h
      exact ih g h

theorem flatMap_del_eq_filter (c0 : Char) (l : Chars) :
    (l.flatMap fun x => if x = c0 then [] else [x]) =
      l.filter (fun c => c ≠ c0) := by
  induction l with
  | nil => rfl
  | cons x t ih =>
    rw [List.flatMap_cons, ih]
    by_cases hx : x = c0
    · subst hx
      simp
    · simp [hx]

/-- `removeHyphens` of any UUID-pattern match is a 32-character
lowercase-hex id with no hyphens. -/
theorem removeHyphens_spec (cs g : Chars) (h : uuidSearch cs = some g) :
    (removeHyphens g).length = 32 ∧
    (removeHyphens g).data.all isHexLower = true ∧
    '-' ∉ (removeHyphens g).data := by
  obtain ⟨hlen, hall⟩ := uuidSearch_spec cs g h
  have hrw : removeHyphens g = String.mk (g.filter (fun c => c ≠ '-')) := by
    unfold removeHyphens
    rw [pyReplaceCh_single, flatMap_del_eq_filter]
  rw [hrw]
  refine ⟨hlen, hall, ?_⟩
  intro hm
  exact hex_ne_hyphen '-' (List.all_eq_true.mp hall '-' hm) rfl

set_option maxRecDepth 4000 in
/-- C10: whenever `parse_notion_url` returns an id, it is in normal
form — exactly 32 characters, all lowercase hex digits, no hyphens —
whatever the input URL (hyphenated or upper-case ids included). -/
theorem claim_C10_id_normal_form (url s : String)
    (h : parse_notion_url url = some s) :
    s.length = 32 ∧ s.data.all isHexLower = true ∧ '-' ∉ s.data := by
  unfold parse_notion_url at h
  by_cases hurl : url = ""
  · rw [if_pos hurl] at h; cases h
  · rw [if_neg hurl] at h
    simp only at h
    cases h1 : uuidSearch (pyLower (pnormalize url)).data with
    | some g =>
      rw [h1] at h
      simp only [Option.some.injEq] at h
      subst h
      exact removeHyphens_spec _ g h1
    | none =>
      rw [h1] at h
      simp only at h
      by_cases hn : pyEndswith (urlparseModel (pnormalize url)).netloc "notion.so" = false
      · rw [if_pos hn] at h; cases h
      · rw [if_neg hn] at h
        cases h2 : firstMatch ((pySplit "/" (urlparseModel (pnormalize url)).path).filter
            (fun p => p ≠ "")) with
        | some g =>
          rw [h2] at h
          simp only [Option.some.injEq] at h
          subst h
          obtain ⟨p, _, hp⟩ := firstMatch_spec _ g h2
          exact removeHyphens_spec _ g hp
        | none =>
          rw [h2] at h
          simp only at h
          cases h3 : firstMatchQs (parse_qs (urlparseModel (pnormalize url)).query) with
          | some g =>
            rw [h3] at h
            simp only [Option.some.injEq] at h
            subst h
            obtain ⟨v, hv⟩ := firstMatchQs_spec _ g h3
            exact removeHyphens_spec _ g hv
          | none =>
            rw [h3] at h
            cases h

set_option maxRecDepth 40000 in
/-- Witness for C10 at a hyphenated upper-case Notion URL. -/
theorem claim_C10_id_normal_form_witness :
    ("21aa14cbed00803aa901e7dd18110084" : String).length = 32 ∧
    ("21aa14cbed00803aa901e7dd18110084" : String).data.all isHexLower = true ∧
    '-' ∉ ("21aa14cbed00803aa901e7dd18110084" : String).data :=
  claim_C10_id_normal_form
    "https://www.notion.so/demandio/My-Page-21AA14CB-ED00-803A-A901-E7DD18110084"
    "21aa14cbed00803aa901e7dd18110084" (by rfl)

theorem uuidSearch_isSome_of_bare32 : ∀ cs : Chars, hasBare32Hex cs = true →
    (uuidSearch cs).isSome = true := by
  intro cs
  induction cs with
  | nil => intro h; cases h
  | cons c t ih =>
    intro h
    simp only [hasBare32Hex, Bool.or_eq_true] at h
    simp only [uuidSearch]
    cases hm : uuidMatchAt (c :: t) with
    | some g => rfl
    | none =>
      rcases h with h32 | ht
      · exfalso
        unfold uuidMatchAt at hm
        cases h1 : uuidAlt1 (c :: t) with
        | some g1 => rw [h1] at hm; cases hm
        | none =>
          rw [h1] at hm
          simp only at hm
          unfold uuidAlt2 at hm
          rcases Option.isSome_iff_exists.mp h32 with ⟨pr, hpr⟩
          rw [hpr] at hm
          cases hm
      · exact ih ht

set_option maxRecDepth 40000 in
/-- C5 counterexample: this URL contains no bare 32-hex substring (its
longest hex run is 12 characters) and its host `example.com` does not end
in `notion.so`, yet `parse_notion_url` returns an id — the regex also
matches the hyphenated UUID shape — contradicting the claim that such
URLs yield `None`. -/
theorem claim_C5_counterexample :
    hasBare32Hex "https://example.com/aaaaaaaa-bbbb-cccc-dddd-eeeeeeeeeeee".data = false ∧
    pyEndswith (urlparseModel
        (pnormalize "https://example.com/aaaaaaaa-bbbb-cccc-dddd-eeeeeeeeeeee")).netloc
      "notion.so" = false ∧
    parse_notion_url "https://example.com/aaaaaaaa-bbbb-cccc-dddd-eeeeeeeeeeee"
      = some "aaaaaaaabbbbccccddddeeeeeeeeeeee" :=
  ⟨rfl, rfl, rfl⟩

/-- C5 (amended): `parse_notion_url` returns the leftmost match of the
UUID pattern (which admits hyphenated forms as well as bare 32-hex runs)
in the lower-cased normalized URL, with hyphens removed — in particular it
returns some id whenever the URL contains a bare 32-hex substring, though
an earlier or overlapping pattern match may win over that substring —
and it returns `None` whenever the pattern matches nowhere in the URL
and the URL's host does not end in `notion.so`. -/
theorem claim_C5_leftmost_match :
    (∀ (url : String) (g : Chars), url ≠ "" →
      uuidSearch (pyLower (pnormalize url)).data = some g →
      parse_notion_url url = some (removeHyphens g)) ∧
    (∀ url : String, url ≠ "" →
      hasBare32Hex (pyLower (pnormalize url)).data = true →
      parse_notion_url url ≠ none) ∧
    (∀ url : String,
      uuidSearch (pyLower (pnormalize url)).data = none →
      pyEndswith (urlparseModel (pnormalize url)).netloc "notion.so" = false →
      parse_notion_url url = none) := by
  have main : ∀ (url : String) (g : Chars), url ≠ "" →
      uuidSearch (pyLower (pnormalize url)).data = some g →
      parse_notion_url url = some (removeHyphens g) := by
    intro url g hurl hs
    unfold parse_notion_url
    rw [if_neg hurl]
    simp only [hs]
  refine ⟨main, ?_, ?_⟩
  · intro url hurl hbare
    have := uuidSearch_isSome_of_bare32 _ hbare
    rcases Option.isSome_iff_exists.mp this with ⟨g, hg⟩
    rw [main url g hurl hg]
    simp
  · intro url hs hn
    unfold parse_notion_url
    by_cases hurl : url = ""
    · rw [if_pos hurl]
    · rw [if_neg hurl]
      simp only [hs, hn, if_pos]

set_option maxRecDepth 40000 in
/-- Witness for the amended C5: the documented workspace URL yields its
bare id, and a pattern-free URL on a foreign host yields `None`. -/
theorem claim_C5_leftmost_match_witness :
    parse_notion_url "https://www.notion.so/demandio/c2eb1241ebbf4f39acc1ac716dae03f7"
      = some (removeHyphens "c2eb1241ebbf4f39acc1ac716dae03f7".data) ∧
    parse_notion_url "https://example.com/plain" = none :=
  ⟨claim_C5_leftmost_match.1 _ "c2eb1241ebbf4f39acc1ac716dae03f7".data
      (by decide) (by rfl),
   claim_C5_leftmost_match.2.2 "https://example.com/plain" (by rfl) (by rfl)⟩
